import Mathlib

/-!
# Verification of the Virtual-TA retrieval pipeline

Shallow embedding of the repository's retrieval pipeline
(`src/embedding.py` — chunker, embedding client with retry/fallback,
ingestion batching; `src/app.py` — retriever and answer assembler)
and proofs of the specification's claims about it.

Modelling conventions:
* Python strings are modelled as Lean `String` (for the chunker, which
  slices at word granularity) or `List Char` (for the embedding client,
  which slices by character position — Python slices by code point).
* Floating-point vectors are idealised as exact `List ℝ`
  (`np.linalg.norm` is a real square root); FAISS similarity scores,
  which are only compared and sorted, are idealised as `ℚ`.
* External services (the Gemini embedding provider, the FAISS search
  call, the generative model) are passed in as oracles; the embedding
  provider is an oracle over the index of the call, so that its answer
  can change between attempts.
* `time.sleep` has no observable effect other than the wait time; the
  waits requested by the retry loop are collected into a list.
-/

namespace VirtualTA

/-! ## Definitions: the shallow embedding of the pipeline -/

/-- Python's `str.split()`: split on runs of whitespace and drop
empty pieces.  Worker over the character list, with `acc` holding the
current word reversed. -/
def splitWordsAux : List Char → List Char → List String
  | [], acc => if acc.isEmpty then [] else [String.mk acc.reverse]
  | c :: cs, acc =>
    if c.isWhitespace then
      if acc.isEmpty then splitWordsAux cs []
      else String.mk acc.reverse :: splitWordsAux cs []
    else splitWordsAux cs (c :: acc)

/-- `text.split()` from line 31 of `chunk_by_words`. -/
def splitWords (text : String) : List String :=
  splitWordsAux text.data []

/-- The `while start < len(words)` loop of `chunk_by_words`
(lines 33–38), instrumented with fuel: `none` means the loop did not
finish within `fuel` iterations.  Each iteration emits
`" ".join(words[start:end])` with `end = min(start + max_words, len(words))`
and advances `start` by `max_words - overlap` (a Python `int`
subtraction; if `overlap ≥ max_words` the Python value is ≤ 0 and
`start` never passes `len(words)`, which the truncated `Nat`
subtraction models by not advancing at all). -/
def chunkLoop : Nat → List String → Nat → Nat → Nat → Option (List String)
  | 0, _, _, _, _ => none
  | fuel + 1, words, maxWords, overlap, start =>
    if start < words.length then
      match chunkLoop fuel words maxWords overlap (start + (maxWords - overlap)) with
      | some rest =>
          some (String.intercalate " "
              (List.take (min (start + maxWords) words.length - start)
                (List.drop start words)) :: rest)
      | none => none
    else
      some []

/-- `chunk_by_words(text, max_words, overlap)`.  When the window
advances (`overlap < max_words`) a fuel of `len(words) + 1` is enough
(proved below), so `none` signals exactly the diverging configurations. -/
def chunk_by_words (text : String) (maxWords overlap : Nat) : Option (List String) :=
  chunkLoop ((splitWords text).length + 1) (splitWords text) maxWords overlap 0

/-- Closed form of the chunk list produced from window start `start`
onwards, assuming the window advances by `step` per iteration
(`step = max_words - overlap`; `max step 1` only serves termination and
equals `step` in every use). -/
def chunksFrom (words : List String) (w step : Nat) (start : Nat) : List String :=
  if start < words.length then
    String.intercalate " " (List.take w (List.drop start words)) ::
      chunksFrom words w step (start + max step 1)
  else []
  termination_by words.length - start
  decreasing_by
    have h1 : 1 ≤ max step 1 := Nat.le_max_right step 1
    omega

/-- The metadata record built for each chunk of a markdown file
(the dict literal at lines 102–107; `ctype` models the `"type"` key). -/
structure ChunkMeta where
  source : String
  ctype : String
  chunk_id : Nat
  total_chunks : Nat
deriving DecidableEq, Repr

/-- The `for idx, chunk in enumerate(chunks)` loop of
`ingest_markdown_files` restricted to the metadata it builds. -/
def mdMetas (fname : String) (chunks : List String) : List ChunkMeta :=
  chunks.enum.map (fun p =>
    { source := "Course: " ++ fname.replace ".md" "",
      ctype := "course_content",
      chunk_id := p.1,
      total_chunks := chunks.length })

/-- Outcome of one `genai.embed_content` call: the raw (un-normalised)
embedding, an exception whose message contains `"quota"`/`"rate"`, or
any other exception. -/
inductive ProviderResult where
  | ok (v : List ℝ)
  | rateLimit (msg : String)
  | fail (msg : String)

/-- A provider behaviour: the result of the `k`-th provider call when
made on `text`. -/
abbrev Provider := Nat → List Char → ProviderResult

/-- Exceptions that escape `safe_embed`. -/
inductive EmbError where
  | rateLimited (msg : String)
  | failed (msg : String)
deriving DecidableEq

/-- `sum(x_i^2)` — the square of `np.linalg.norm`. -/
def sumSq (v : List ℝ) : ℝ := (v.map fun x => x * x).sum

/-- `np.linalg.norm(v)`. -/
noncomputable def l2norm (v : List ℝ) : ℝ := Real.sqrt (sumSq v)

/-- `embedding / np.linalg.norm(embedding)` (line 50). -/
noncomputable def normalize (v : List ℝ) : List ℝ := v.map (· / l2norm v)

/-- `((np.array(left) + np.array(right)) / 2).tolist()` (line 69). -/
noncomputable def avgVec (l r : List ℝ) : List ℝ :=
  List.zipWith (fun a b => (a + b) / 2) l r

/-- `embed_text(text)` (lines 42–51): one provider call, then
normalisation of the raw embedding; provider exceptions propagate. -/
noncomputable def embed_text (p : Provider) (k : Nat) (text : List Char) :
    Except EmbError (List ℝ) :=
  match p k text with
  | .ok v => .ok (normalize v)
  | .rateLimit m => .error (.rateLimited m)
  | .fail m => .error (.failed m)

/-- `safe_embed(text, retry_count)` (lines 54–70).  Returns the result,
the next provider-call index, and the list of back-off waits requested
(in seconds, via `time.sleep`, line 63) in chronological order. -/
noncomputable def safe_embed (p : Provider) (text : List Char) (rc k : Nat) :
    Except EmbError (List ℝ) × Nat × List Nat :=
  match embed_text p k text with
  | .ok v => (.ok v, k + 1, [])
  | .error (.rateLimited m) =>
    if rc < 3 then
      let r := safe_embed p text (rc + 1) (k + 1)
      (r.1, r.2.1, 10 * (rc + 1) :: r.2.2)
    else (.error (.rateLimited m), k + 1, [])
  | .error (.failed m) =>
    if 10000 < text.length then
      let mid := text.length / 2
      let l := safe_embed p (text.take mid) 0 (k + 1)
      match l.1 with
      | .ok lv =>
        let r := safe_embed p (text.drop mid) 0 l.2.1
        match r.1 with
        | .ok rv => (.ok (avgVec lv rv), r.2.1, l.2.2 ++ r.2.2)
        | .error e => (.error e, r.2.1, l.2.2 ++ r.2.2)
      | .error e => (.error e, l.2.1, l.2.2)
    else (.error (.failed m), k + 1, [])
  termination_by (text.length, 3 - rc)
  decreasing_by
  · exact Prod.Lex.right _ (by omega)
  · apply Prod.Lex.left
    simp [List.length_take]
    omega
  · apply Prod.Lex.left
    simp [List.length_drop]
    omega

/-- Fuel-instrumented version of `safe_embed`, structurally recursive on
the fuel; `none` means the fuel was exhausted before the recursion
finished.  Used to state that `safe_embed`'s recursion terminates. -/
noncomputable def safe_embedF (p : Provider) :
    Nat → List Char → Nat → Nat → Option (Except EmbError (List ℝ) × Nat × List Nat)
  | 0, _, _, _ => none
  | fuel + 1, text, rc, k =>
    match embed_text p k text with
    | .ok v => some (.ok v, k + 1, [])
    | .error (.rateLimited m) =>
      if rc < 3 then
        (safe_embedF p fuel text (rc + 1) (k + 1)).map
          (fun r => (r.1, r.2.1, 10 * (rc + 1) :: r.2.2))
      else some (.error (.rateLimited m), k + 1, [])
    | .error (.failed m) =>
      if 10000 < text.length then
        let mid := text.length / 2
        match safe_embedF p fuel (text.take mid) 0 (k + 1) with
        | none => none
        | some l =>
          match l.1 with
          | .ok lv =>
            match safe_embedF p fuel (text.drop mid) 0 l.2.1 with
            | none => none
            | some r =>
              match r.1 with
              | .ok rv => some (.ok (avgVec lv rv), r.2.1, l.2.2 ++ r.2.2)
              | .error e => some (.error e, r.2.1, l.2.2 ++ r.2.2)
          | .error e => some (.error e, l.2.1, l.2.2)
      else some (.error (.failed m), k + 1, [])

/-- Provider signalling a rate limit on the first three calls and
succeeding on the fourth. -/
noncomputable def provider3 : Provider := fun k _ =>
  if k < 3 then .rateLimit "quota" else .ok [1]

/-- Provider signalling a rate limit on the first two calls and
succeeding on the third. -/
noncomputable def provider2 : Provider := fun k _ =>
  if k < 2 then .rateLimit "rate" else .ok [1]

/-- Provider signalling a rate limit on every call. -/
noncomputable def providerAlwaysRate : Provider := fun _ _ => .rateLimit "quota"

/-- A 10001-character text, above the 10000-character oversize bound. -/
def bigText : List Char := List.replicate 10001 'a'

/-- Provider failing (not rate-limited) on the full oversized text and
returning the unit vectors `[1,0]` / `[0,1]` on its two halves (which
have lengths 5000 and 5001). -/
noncomputable def bigProvider : Provider := fun _ text =>
  if text.length = 5000 then .ok [1, 0]
  else if text.length = 5001 then .ok [0, 1]
  else .fail "boom"

/-- `SIMILARITY_THRESHOLD = 0` (line 25 of `src/app.py`). -/
def SIMILARITY_THRESHOLD : ℚ := 0

/-- `TOP_K_RESULTS = 5` (line 26 of `src/app.py`). -/
def TOP_K_RESULTS : Nat := 5

/-- One record of the loaded `metadata.json` list, restricted to the
fields `search_similar` reads (`ctype` models the `"type"` key; the
`"chunk_id"` key may be absent, hence `Option` — the code reads it with
`meta.get("chunk_id", 0)`). -/
structure MetaRecord where
  text : String
  source : String
  ctype : String
  chunk_id : Option Nat
deriving DecidableEq, Repr

/-- One entry of the `results` list built by `search_similar`
(lines 117–123 of `src/app.py`). -/
structure SearchResult where
  content : String
  source : String
  ctype : String
  similarity : ℚ
  chunk_id : Nat
deriving DecidableEq, Repr

/-- A FAISS search oracle: for a requested candidate count `n`, the
`(distance, index)` pairs FAISS returns (FAISS pads with index `-1`
when the index holds fewer than `n` vectors, hence `Int`). -/
abbrev SearchFn := Nat → List (ℚ × Int)

/-- The body of the `for i, (dist, idx) in enumerate(zip(...))` loop
(lines 109–123): skip out-of-range positions (`idx < 0 or
idx >= len(metadata)`), keep a candidate only if its similarity clears
`SIMILARITY_THRESHOLD`, and resolve the metadata record. -/
def resolveCandidate (metadata : List MetaRecord) (c : ℚ × Int) :
    Option SearchResult :=
  if c.2 < 0 ∨ (metadata.length : Int) ≤ c.2 then none
  else if SIMILARITY_THRESHOLD ≤ c.1 then
    (metadata.get? c.2.toNat).map fun m =>
      { content := m.text, source := m.source, ctype := m.ctype,
        similarity := c.1, chunk_id := m.chunk_id.getD 0 }
  else none

/-- Descending-similarity order used by
`results.sort(key=lambda x: x["similarity"], reverse=True)`. -/
def simDesc (a b : SearchResult) : Prop := b.similarity ≤ a.similarity

instance : DecidableRel simDesc := fun a b =>
  inferInstanceAs (Decidable (b.similarity ≤ a.similarity))

instance : IsTotal SearchResult simDesc :=
  ⟨fun a b => le_total b.similarity a.similarity⟩

instance : IsTrans SearchResult simDesc :=
  ⟨fun _ _ _ h1 h2 => le_trans h2 h1⟩

/-- Python's `list.sort(..., reverse=True)` is a stable descending
sort; any stable sorting algorithm computes the same list, so it is
embedded as insertion sort under `simDesc` (stability is proved
below). -/
def sortBySimDesc (l : List SearchResult) : List SearchResult :=
  List.insertionSort simDesc l

/-- `search_similar(query_embedding, top_k)` (lines 98–131): fetch
`top_k * 2` candidates from FAISS, filter, sort by similarity
descending (stable), return the first `top_k`. -/
def search_similar (metadata : List MetaRecord) (searchFn : SearchFn)
    (top_k : Nat) : List SearchResult :=
  (sortBySimDesc ((searchFn (top_k * 2)).filterMap
    (resolveCandidate metadata))).take top_k

/-- Modelled from the spec: the same retrieval with the
threshold-filtering step removed ("performing no threshold filtering at
all — every candidate is accepted"), used to state claim C8's
refinement comparison. -/
def search_similar_nofilter (metadata : List MetaRecord) (searchFn : SearchFn)
    (top_k : Nat) : List SearchResult :=
  (sortBySimDesc ((searchFn (top_k * 2)).filterMap fun c =>
    if c.2 < 0 ∨ (metadata.length : Int) ≤ c.2 then none
    else
      (metadata.get? c.2.toNat).map fun m =>
        { content := m.text, source := m.source, ctype := m.ctype,
          similarity := c.1, chunk_id := m.chunk_id.getD 0 })).take top_k

/-- One entry of the `links` list returned by `generate_answer`. -/
structure LinkInfo where
  url : String
  text : String
deriving DecidableEq, Repr

/-- The fixed fallback answer of lines 140–143 of `src/app.py`. -/
def NO_INFO_ANSWER : String :=
  "I couldn\x27t find any relevant information in my knowledge base."

/-- The `[Source N]` context blocks (lines 149–157). -/
def contextParts (chunks : List SearchResult) : List String :=
  chunks.enum.map fun p => "[Source " ++ toString (p.1 + 1) ++ "]:\n" ++ p.2.content ++ "\n"

/-- The grounded prompt of lines 160–173. -/
def buildPrompt (question : String) (chunks : List SearchResult) : String :=
  "You are a helpful teaching assistant. Answer the student\x27s question using ONLY the provided context below.\n\nContext:\n"
    ++ String.intercalate "\n" (contextParts chunks)
    ++ "\n\nQuestion: " ++ question
    ++ "\n\nInstructions:\n1. Provide a clear, comprehensive answer based on the context\n2. If the context doesn\x27t contain enough information, say so\n3. Reference specific sources when making claims (e.g., \"According to Source 1...\")\n4. Be concise but thorough\n\nAnswer:"

/-- `generate_answer(question, context_chunks)` (lines 134–196) with
the generative model passed as the oracle `genFn`: on an empty chunk
list return the fixed fallback with no links (no model call); otherwise
call the model once on the grounded prompt and pair each chunk's source
with the first 150 characters of its text, in order (`sources_used` is
keyed by the 1-based position and Python dicts preserve insertion
order). -/
def generate_answer (genFn : String → String) (question : String)
    (context_chunks : List SearchResult) : String × List LinkInfo :=
  if context_chunks.isEmpty then
    (NO_INFO_ANSWER, [])
  else
    (genFn (buildPrompt question context_chunks),
      context_chunks.map fun c => { url := c.source, text := c.content.take 150 })

/-- A one-record metadata store used in the threshold scenarios. -/
def mdOne : List MetaRecord :=
  [{ text := "t", source := "s", ctype := "course_content", chunk_id := some 0 }]

/-- A FAISS oracle returning one in-range candidate of similarity −1. -/
def negCand : SearchFn := fun _ => [(-1, 0)]

/-- A FAISS oracle returning one in-range candidate of similarity 1. -/
def posCand : SearchFn := fun _ => [(1, 0)]

/-- A concrete retrieved chunk for the answer-assembly witness. -/
def chunkC : SearchResult :=
  { content := "c", source := "s", ctype := "t", similarity := 1, chunk_id := 0 }

/-- One record of the Metadata Store after `index_batch` extends it:
the chunk metadata together with the chunk text
(`{"text": t, **m}`, line 183). -/
structure StoredRecord where
  text : String
  source : String
  ctype : String
  chunk_id : Nat
  total_chunks : Nat
deriving DecidableEq, Repr

/-- `{"text": t, **m}` for one `(t, m)` pair of `zip(texts, metas)`. -/
def mkStored (t : List Char) (m : ChunkMeta) : StoredRecord :=
  { text := String.mk t, source := m.source, ctype := m.ctype,
    chunk_id := m.chunk_id, total_chunks := m.total_chunks }

/-- The global mutable stores of `src/embedding.py`: the FAISS
`IndexFlatIP` (a list of vectors in insertion order) and the `metadata`
list. -/
structure IngestState where
  index : List (List ℝ)
  metadata : List StoredRecord

/-- The embedding loop of `index_batch` (lines 174–179): embed each
text sequentially with `safe_embed`; the first failure propagates and
aborts the batch.  Returns the vectors and the next provider-call
index. -/
noncomputable def embedAll (p : Provider) :
    List (List Char) → Nat → Except EmbError (List (List ℝ)) × Nat
  | [], k => (.ok [], k)
  | t :: ts, k =>
    match safe_embed p t 0 k with
    | (.ok v, k', _) =>
      match embedAll p ts k' with
      | (.ok vs, k'') => (.ok (v :: vs), k'')
      | (.error e, k'') => (.error e, k'')
    | (.error e, k', _) => (.error e, k')

/-- `index_batch(texts, metas)` (lines 171–184): embed the batch, then
`index.add(arr)` followed by
`metadata.extend([{"text": t, **m} for t, m in zip(texts, metas)])`.
An embedding failure propagates before either store is touched. -/
noncomputable def index_batch (p : Provider) (st : IngestState)
    (texts : List (List Char)) (metas : List ChunkMeta) (k : Nat) :
    Except EmbError IngestState × Nat :=
  match embedAll p texts k with
  | (.ok embs, k') =>
    (.ok { index := st.index ++ embs,
           metadata := st.metadata ++ (texts.zip metas).map fun pr => mkStored pr.1 pr.2 },
      k')
  | (.error e, k') => (.error e, k')

/-- `BATCH_SIZE = 100` (line 20). -/
def BATCH_SIZE : Nat := 100

/-- The batch loop of `main` (lines 218–221):
`for i in range(0, len(all_texts), BATCH_SIZE): index_batch(...)` over
aligned slices of the accumulated texts and metadata. -/
noncomputable def runBatches (p : Provider) :
    IngestState → List (List Char) → List ChunkMeta → Nat →
      Except EmbError IngestState × Nat
  | st, texts, metas, k =>
    if h : texts = [] then (.ok st, k)
    else
      match index_batch p st (texts.take BATCH_SIZE) (metas.take BATCH_SIZE) k with
      | (.ok st', k') =>
        runBatches p st' (texts.drop BATCH_SIZE) (metas.drop BATCH_SIZE) k'
      | (.error e, k') => (.error e, k')
  termination_by _ texts _ _ => texts.length
  decreasing_by
    have hpos : 0 < texts.length := List.length_pos.mpr h
    simp only [List.length_drop, BATCH_SIZE]
    omega

/-- A provider that answers every call with the raw vector `[1]`. -/
noncomputable def okProvider : Provider := fun _ _ => .ok [1]

/-- Concrete chunk metadata for the ingestion witness. -/
def metaA : ChunkMeta :=
  { source := "Course: doc", ctype := "course_content", chunk_id := 0,
    total_chunks := 1 }

/-- The ingestion state after embedding the single chunk `"a"`. -/
noncomputable def stW : IngestState :=
  { index := [[1]], metadata := [mkStored ['a'] metaA] }

/-! ## Lemmas, claim theorems, counterexamples and witnesses -/

/-- The slice `words[start:min(start+w, len)]` is just `take w ∘ drop start`. -/
lemma slice_take_eq (words : List String) (w start : Nat) :
    List.take (min (start + w) words.length - start) (List.drop start words) =
      List.take w (List.drop start words) := by
  rcases Nat.le_total start words.length with h | h
  · rw [List.take_eq_take]
    simp [List.length_drop]
    omega
  · rw [List.drop_eq_nil_of_le h]
    simp

lemma chunksFrom_nonpos (words : List String) (w step start : Nat)
    (h : ¬ start < words.length) : chunksFrom words w step start = [] := by
  rw [chunksFrom]
  simp [h]

lemma chunksFrom_pos (words : List String) (w step start : Nat)
    (h : start < words.length) :
    chunksFrom words w step start =
      String.intercalate " " (List.take w (List.drop start words)) ::
        chunksFrom words w step (start + max step 1) := by
  rw [chunksFrom]
  simp [h]

/-- With enough fuel and an advancing window, the loop terminates and
produces exactly `chunksFrom`. -/
lemma chunkLoop_eq_chunksFrom (words : List String) (w o : Nat) (how : o < w) :
    ∀ fuel start, words.length - start < fuel →
      chunkLoop fuel words w o start = some (chunksFrom words w (w - o) start) := by
  intro fuel
  induction fuel with
  | zero => intro start h; omega
  | succ fuel ih =>
    intro start h
    by_cases hs : start < words.length
    · have hstep : max (w - o) 1 = w - o := by omega
      have hrec := ih (start + (w - o)) (by omega)
      rw [chunkLoop, if_pos hs, hrec, chunksFrom_pos words w (w - o) start hs,
        slice_take_eq, hstep]
    · rw [chunkLoop, if_neg hs, chunksFrom_nonpos words w (w - o) start hs]

/-- Number of chunks: `⌈(len - start) / step⌉` as a `Nat` expression. -/
lemma chunksFrom_length (words : List String) (w step : Nat) (hstep : 1 ≤ step) :
    ∀ start, (chunksFrom words w step start).length =
      (words.length - start + step - 1) / step := by
  intro start
  by_cases hs : start < words.length
  · rw [chunksFrom_pos words w step start hs]
    have hmax : max step 1 = step := by omega
    rw [hmax] at *
    have ih := chunksFrom_length words w step hstep (start + step)
    rw [hmax] at ih
    rw [List.length_cons, ih]
    rcases Nat.le_total (words.length - start) step with hle | hle
    · have h1 : words.length - (start + step) = 0 := by omega
      have h2 : (words.length - start + step - 1) / step = 1 :=
        Nat.div_eq_of_lt_le (by omega) (by omega)
      have h3 : (0 + step - 1) / step = 0 := Nat.div_eq_of_lt (by omega)
      rw [h1, h3, h2]
    · have h1 : words.length - (start + step) + step - 1 + step
          = words.length - start + step - 1 := by omega
      calc (words.length - (start + step) + step - 1) / step + 1
          = (words.length - (start + step) + step - 1 + step) / step :=
            (Nat.add_div_right _ (by omega)).symm
        _ = (words.length - start + step - 1) / step := by rw [h1]
  · rw [chunksFrom_nonpos words w step start hs]
    have h0 : words.length - start = 0 := by omega
    rw [h0, List.length_nil]
    exact (Nat.div_eq_of_lt (by omega)).symm
  termination_by start => words.length - start
  decreasing_by omega

/-- The `i`-th emitted chunk is the window starting at word `start + i·step`. -/
lemma chunksFrom_get (words : List String) (w step : Nat) (hstep : 1 ≤ step) :
    ∀ i start, (chunksFrom words w step start).get? i =
      if start + i * step < words.length then
        some (String.intercalate " " (List.take w (List.drop (start + i * step) words)))
      else none := by
  intro i
  induction i with
  | zero =>
    intro start
    by_cases hs : start < words.length
    · rw [chunksFrom_pos words w step start hs]
      simp [hs]
    · rw [chunksFrom_nonpos words w step start hs]
      simp [hs]
  | succ i ih =>
    intro start
    by_cases hs : start < words.length
    · rw [chunksFrom_pos words w step start hs]
      have hmax : max step 1 = step := by omega
      rw [hmax]
      have := ih (start + step)
      have harith : start + step + i * step = start + (i + 1) * step := by ring
      rw [List.get?_cons_succ, this, harith]
    · rw [chunksFrom_nonpos words w step start hs]
      have : ¬ start + (i + 1) * step < words.length := by
        have : step ≤ (i + 1) * step := Nat.le_mul_of_pos_left _ (by omega)
        omega
      simp [this]

/-- If `max_words - overlap ≤ 0` the loop never advances past a start
inside the word list, so no amount of fuel finishes it. -/
lemma chunkLoop_none_of_nonadvancing (words : List String) (w o start : Nat)
    (hwo : w ≤ o) (hs : start < words.length) :
    ∀ fuel, chunkLoop fuel words w o start = none := by
  intro fuel
  induction fuel with
  | zero => rfl
  | succ fuel ih =>
    have hz : w - o = 0 := by omega
    rw [chunkLoop, if_pos hs, hz, Nat.add_zero, ih]

/-- C5.  The spec demands that `window_words − overlap_words ≤ 0` be
rejected as a `ConfigurationError`; the code instead loops forever.  At
the failing input `chunk_by_words("a b c", max_words := 2, overlap := 2)`
the `while` loop of lines 34–38 runs out of any finite fuel (it never
terminates and never raises), so the code contradicts the claim — a
code bug, not a spec error. -/
theorem chunk_by_words_nonadvancing_diverges :
    (∀ fuel, chunkLoop fuel (splitWords "a b c") 2 2 0 = none) ∧
      chunk_by_words "a b c" 2 2 = none := by
  have hwords : splitWords "a b c" = ["a", "b", "c"] := by decide
  constructor
  · intro fuel
    exact chunkLoop_none_of_nonadvancing _ 2 2 0 (le_refl 2)
      (by rw [hwords]; decide) fuel
  · exact chunkLoop_none_of_nonadvancing _ 2 2 0 (le_refl 2)
      (by rw [hwords]; decide) _

/-- C6.  For `overlap < window`, `chunk_by_words` terminates and emits
the successive word windows `[start, start + w)` joined by single
spaces, advancing by `w − o` and stopping once `start ≥ len(words)`:
the `i`-th chunk is the window at word `i·(w−o)`, the number of chunks
is `⌈len/(w−o)⌉` (so empty input gives no chunks and non-empty input at
least one), and a 3000-word document with window 2000 and overlap 200
gives exactly 2 chunks — the second starting at word 1800 — whose
ingestion metadata carries `chunk_id` 0 and 1 and `total_chunks = 2`. -/
theorem chunk_by_words_correct (text : String) (w o : Nat) (how : o < w) :
    ∃ chunks, chunk_by_words text w o = some chunks ∧
      chunks.length = ((splitWords text).length + (w - o) - 1) / (w - o) ∧
      (∀ i, chunks.get? i =
        if i * (w - o) < (splitWords text).length then
          some (String.intercalate " "
            (List.take w (List.drop (i * (w - o)) (splitWords text))))
        else none) ∧
      (splitWords text = [] → chunks = []) ∧
      (splitWords text ≠ [] → chunks ≠ []) ∧
      ((splitWords text).length = 3000 → w = 2000 → o = 200 →
        chunks.length = 2 ∧
        chunks.get? 0 = some (String.intercalate " "
          (List.take 2000 (splitWords text))) ∧
        chunks.get? 1 = some (String.intercalate " "
          (List.drop 1800 (splitWords text))) ∧
        (∀ fname, ((mdMetas fname chunks).map (fun m => m.chunk_id)) = [0, 1] ∧
          ∀ m ∈ mdMetas fname chunks, m.total_chunks = 2)) := by
  set words := splitWords text with hwords
  have hstep : 1 ≤ w - o := by omega
  refine ⟨chunksFrom words w (w - o) 0, ?_, ?_, ?_, ?_, ?_, ?_⟩
  · exact chunkLoop_eq_chunksFrom words w o how _ 0 (by rw [← hwords]; omega)
  · simpa using chunksFrom_length words w (w - o) hstep 0
  · intro i
    simpa using chunksFrom_get words w (w - o) hstep i 0
  · intro h
    rw [chunksFrom_nonpos]
    simp [h]
  · intro h
    rw [chunksFrom_pos words w (w - o) 0 (List.length_pos.mpr h)]
    simp
  · intro hlen hw ho
    subst hw ho
    have hlen2 : (chunksFrom words 2000 (2000 - 200) 0).length = 2 := by
      rw [chunksFrom_length words 2000 (2000 - 200) hstep 0, hlen]
    refine ⟨hlen2, ?_, ?_, ?_⟩
    · have := chunksFrom_get words 2000 (2000 - 200) hstep 0 0
      rw [this]
      simp [hlen]
    · have := chunksFrom_get words 2000 (2000 - 200) hstep 1 0
      rw [this]
      have hrange : 0 + 1 * (2000 - 200) < words.length := by omega
      rw [if_pos hrange]
      have hdrop : (List.drop (0 + 1 * (2000 - 200)) words) = List.drop 1800 words := by
        norm_num
      rw [hdrop, List.take_of_length_le (by simp [List.length_drop, hlen])]
    · intro fname
      obtain ⟨c0, c1, hc⟩ := List.length_eq_two.mp hlen2
      rw [hc]
      constructor
      · simp [mdMetas, List.enum]
      · intro m hm
        simp [mdMetas, List.enum] at hm
        rcases hm with h | h <;> rw [h]

/-- Witness for C6 at the concrete call
`chunk_by_words("a b", max_words := 2, overlap := 1)`. -/
theorem chunk_by_words_correct_witness :
    (1 < 2) ∧ ∃ chunks, chunk_by_words "a b" 2 1 = some chunks ∧ chunks ≠ [] :=
  ⟨by norm_num, by
    obtain ⟨chunks, h1, _, _, _, h5, _⟩ :=
      chunk_by_words_correct "a b" 2 1 (by norm_num)
    exact ⟨chunks, h1, h5 (by decide)⟩⟩

lemma safe_embed_ok {p : Provider} {k : Nat} {text : List Char} {v : List ℝ}
    (h : p k text = .ok v) (rc : Nat) :
    safe_embed p text rc k = (.ok (normalize v), k + 1, []) := by
  rw [safe_embed, embed_text, h]

lemma safe_embed_retry {p : Provider} {k rc : Nat} {text : List Char} {m : String}
    (h : p k text = .rateLimit m) (hrc : rc < 3) :
    safe_embed p text rc k =
      ((safe_embed p text (rc + 1) (k + 1)).1,
        (safe_embed p text (rc + 1) (k + 1)).2.1,
        10 * (rc + 1) :: (safe_embed p text (rc + 1) (k + 1)).2.2) := by
  rw [safe_embed, embed_text, h]
  simp [hrc]

lemma safe_embed_exhausted {p : Provider} {k rc : Nat} {text : List Char} {m : String}
    (h : p k text = .rateLimit m) (hrc : ¬ rc < 3) :
    safe_embed p text rc k = (.error (.rateLimited m), k + 1, []) := by
  rw [safe_embed, embed_text, h]
  simp [hrc]

lemma safe_embed_fail_small {p : Provider} {k rc : Nat} {text : List Char} {m : String}
    (h : p k text = .fail m) (hlen : ¬ 10000 < text.length) :
    safe_embed p text rc k = (.error (.failed m), k + 1, []) := by
  rw [safe_embed, embed_text, h]
  simp [hlen]

lemma safe_embed_fail_split {p : Provider} {k rc : Nat} {text : List Char} {m : String}
    {lv : List ℝ} {k' : Nat} {ws : List Nat}
    (h : p k text = .fail m) (hlen : 10000 < text.length)
    (hl : safe_embed p (text.take (text.length / 2)) 0 (k + 1) = (.ok lv, k', ws)) :
    safe_embed p text rc k =
      (match (safe_embed p (text.drop (text.length / 2)) 0 k').1 with
        | .ok rv => (.ok (avgVec lv rv),
            (safe_embed p (text.drop (text.length / 2)) 0 k').2.1,
            ws ++ (safe_embed p (text.drop (text.length / 2)) 0 k').2.2)
        | .error e => (.error e,
            (safe_embed p (text.drop (text.length / 2)) 0 k').2.1,
            ws ++ (safe_embed p (text.drop (text.length / 2)) 0 k').2.2)) := by
  rw [safe_embed, embed_text, h]
  simp only [hlen, if_pos, hl]

lemma safe_embed_fail_split_err {p : Provider} {k rc : Nat} {text : List Char}
    {m : String} {e : EmbError} {k' : Nat} {ws : List Nat}
    (h : p k text = .fail m) (hlen : 10000 < text.length)
    (hl : safe_embed p (text.take (text.length / 2)) 0 (k + 1) = (.error e, k', ws)) :
    safe_embed p text rc k = (.error e, k', ws) := by
  rw [safe_embed, embed_text, h]
  simp only [hlen, if_pos, hl]

lemma sumSq_nil : sumSq [] = 0 := rfl

lemma sumSq_cons (x : ℝ) (v : List ℝ) : sumSq (x :: v) = x * x + sumSq v := by
  simp [sumSq]

lemma sumSq_nonneg (v : List ℝ) : 0 ≤ sumSq v := by
  induction v with
  | nil => simp [sumSq_nil]
  | cons x v ih =>
    rw [sumSq_cons]
    have := mul_self_nonneg x
    linarith

lemma sumSq_map_div (v : List ℝ) (c : ℝ) :
    sumSq (v.map (· / c)) = sumSq v / (c * c) := by
  induction v with
  | nil => simp [sumSq_nil]
  | cons x v ih =>
    simp only [List.map_cons, sumSq_cons, ih]
    rw [div_mul_div_comm, div_add_div_same]

lemma sumSq_normalize (v : List ℝ) (h : sumSq v ≠ 0) : sumSq (normalize v) = 1 := by
  rw [normalize, sumSq_map_div, l2norm, Real.mul_self_sqrt (sumSq_nonneg v),
    div_self h]

lemma l2norm_normalize (v : List ℝ) (h : sumSq v ≠ 0) : l2norm (normalize v) = 1 := by
  rw [l2norm, sumSq_normalize v h, Real.sqrt_one]

lemma normalize_one : normalize [(1 : ℝ)] = [1] := by
  simp [normalize, l2norm, sumSq, Real.sqrt_one]

lemma normalize_e1 : normalize [(1 : ℝ), 0] = [1, 0] := by
  have h : sumSq [(1 : ℝ), 0] = 1 := by norm_num [sumSq]
  simp [normalize, l2norm, h, Real.sqrt_one]

lemma normalize_e2 : normalize [(0 : ℝ), 1] = [0, 1] := by
  have h : sumSq [(0 : ℝ), 1] = 1 := by norm_num [sumSq]
  simp [normalize, l2norm, h, Real.sqrt_one]

/-- Full evaluation of `safe_embed` on the oversized-input scenario:
the text is split at character 5000, both halves embed to unit vectors,
and the result is their raw average `[1/2, 1/2]`. -/
lemma bigScenario_eval :
    safe_embed bigProvider bigText 0 0 = (.ok [(1 : ℝ)/2, 1/2], 3, []) := by
  have hlen : bigText.length = 10001 := by
    rw [bigText, List.length_replicate]
  have hmid : bigText.length / 2 = 5000 := by rw [hlen]
  have htake : bigText.take 5000 = List.replicate 5000 'a' := by
    rw [bigText, List.take_replicate]
    norm_num
  have hdrop : bigText.drop 5000 = List.replicate 5001 'a' := by
    rw [bigText, List.drop_replicate]
  have h0 : bigProvider 0 bigText = .fail "boom" := by
    simp only [bigProvider, hlen]
    norm_num
  have h1 : bigProvider 1 (List.replicate 5000 'a') = .ok [1, 0] := by
    simp only [bigProvider, List.length_replicate]
    norm_num
  have h2 : bigProvider 2 (List.replicate 5001 'a') = .ok [0, 1] := by
    simp only [bigProvider, List.length_replicate]
    norm_num
  have hl : safe_embed bigProvider (bigText.take (bigText.length / 2)) 0 1 =
      (.ok [(1 : ℝ), 0], 2, []) := by
    rw [hmid, htake, safe_embed_ok h1 0, normalize_e1]
  have hr : safe_embed bigProvider (bigText.drop (bigText.length / 2)) 0 2 =
      (.ok [(0 : ℝ), 1], 3, []) := by
    rw [hmid, hdrop, safe_embed_ok h2 0, normalize_e2]
  rw [safe_embed_fail_split h0 (by omega) hl, hr]
  norm_num [avgVec]

/-- C2 counterexample.  The claim says three consecutive rate-limit
failures followed by a success on the 4th attempt should *still fail*
(retry cap = 3).  On the code, the retry guard `retry_count < 3` admits
three retries *after* the initial attempt, i.e. four provider calls, so
the 4th-attempt success is returned: at this concrete provider the
result is `ok [1]` (after waits 10 s, 20 s, 30 s), not an error. -/
theorem safe_embed_fourth_attempt_succeeds :
    safe_embed provider3 ['a'] 0 0 = (.ok [(1 : ℝ)], 4, [10, 20, 30]) := by
  have hr : ∀ k, k < 3 → provider3 k ['a'] = .rateLimit "quota" := by
    intro k hk
    simp [provider3, hk]
  have h3 : provider3 3 ['a'] = .ok [1] := by simp [provider3]
  rw [safe_embed_retry (hr 0 (by norm_num)) (by norm_num),
    safe_embed_retry (hr 1 (by norm_num)) (by norm_num),
    safe_embed_retry (hr 2 (by norm_num)) (by norm_num),
    safe_embed_ok h3, normalize_one]

/-- C2, amended.  `safe_embed` makes up to 3 retries *after* the
initial attempt (four provider calls in all), with linearly growing
waits 10 s, 20 s, 30 s: three rate-limit failures followed by a success
on the 4th attempt return that success; two failures followed by a
success return that success (waits 10 s, 20 s); four consecutive
rate-limit failures exhaust the retries and the rate-limit failure
propagates to the caller. -/
theorem safe_embed_retry_semantics (p : Provider) (text : List Char) (k : Nat) :
    (∀ m0 m1 m2 v, p k text = .rateLimit m0 → p (k + 1) text = .rateLimit m1 →
      p (k + 2) text = .rateLimit m2 → p (k + 3) text = .ok v →
      safe_embed p text 0 k = (.ok (normalize v), k + 4, [10, 20, 30])) ∧
    (∀ m0 m1 v, p k text = .rateLimit m0 → p (k + 1) text = .rateLimit m1 →
      p (k + 2) text = .ok v →
      safe_embed p text 0 k = (.ok (normalize v), k + 3, [10, 20])) ∧
    (∀ m0 m1 m2 m3, p k text = .rateLimit m0 → p (k + 1) text = .rateLimit m1 →
      p (k + 2) text = .rateLimit m2 → p (k + 3) text = .rateLimit m3 →
      safe_embed p text 0 k = (.error (.rateLimited m3), k + 4, [10, 20, 30])) := by
  refine ⟨?_, ?_, ?_⟩
  · intro m0 m1 m2 v h0 h1 h2 h3
    have h1' : p (k + 1) text = .rateLimit m1 := h1
    have h2' : p (k + 1 + 1) text = .rateLimit m2 := by
      rw [show k + 1 + 1 = k + 2 by ring]; exact h2
    have h3' : p (k + 1 + 1 + 1) text = .ok v := by
      rw [show k + 1 + 1 + 1 = k + 3 by ring]; exact h3
    rw [safe_embed_retry h0 (by norm_num), safe_embed_retry h1' (by norm_num),
      safe_embed_retry h2' (by norm_num), safe_embed_ok h3']
  · intro m0 m1 v h0 h1 h2
    have h2' : p (k + 1 + 1) text = .ok v := by
      rw [show k + 1 + 1 = k + 2 by ring]; exact h2
    rw [safe_embed_retry h0 (by norm_num), safe_embed_retry h1 (by norm_num),
      safe_embed_ok h2']
  · intro m0 m1 m2 m3 h0 h1 h2 h3
    have h2' : p (k + 1 + 1) text = .rateLimit m2 := by
      rw [show k + 1 + 1 = k + 2 by ring]; exact h2
    have h3' : p (k + 1 + 1 + 1) text = .rateLimit m3 := by
      rw [show k + 1 + 1 + 1 = k + 3 by ring]; exact h3
    rw [safe_embed_retry h0 (by norm_num), safe_embed_retry h1 (by norm_num),
      safe_embed_retry h2' (by norm_num), safe_embed_exhausted h3' (by norm_num)]

/-- Witness for C2's amended theorem: the three scenarios instantiated
at concrete providers. -/
theorem safe_embed_retry_semantics_witness :
    safe_embed provider3 ['b'] 0 0 = (.ok (normalize [1]), 4, [10, 20, 30]) ∧
    safe_embed provider2 ['b'] 0 0 = (.ok (normalize [1]), 3, [10, 20]) ∧
    safe_embed providerAlwaysRate ['b'] 0 0 =
      (.error (.rateLimited "quota"), 4, [10, 20, 30]) := by
  refine ⟨?_, ?_, ?_⟩
  · exact (safe_embed_retry_semantics provider3 ['b'] 0).1 "quota" "quota" "quota" [1]
      (by simp [provider3]) (by simp [provider3]) (by simp [provider3])
      (by simp [provider3])
  · exact (safe_embed_retry_semantics provider2 ['b'] 0).2.1 "rate" "rate" [1]
      (by simp [provider2]) (by simp [provider2]) (by simp [provider2])
  · exact (safe_embed_retry_semantics providerAlwaysRate ['b'] 0).2.2
      "quota" "quota" "quota" "quota" rfl rfl rfl rfl

/-- C3 counterexample.  On the oversized-input scenario the code
returns the raw element-wise average `[1/2, 1/2]` of the two half
embeddings `[1,0]` and `[0,1]`.  A vector "re-normalized to unit
length", as the claim states, would have `sumSq = 1`; the returned
vector has `sumSq = 1/2`, so the result is *not* re-normalized. -/
theorem safe_embed_oversized_not_renormalized :
    (safe_embed bigProvider bigText 0 0).1 = .ok [(1 : ℝ)/2, 1/2] ∧
      sumSq [(1 : ℝ)/2, 1/2] ≠ 1 := by
  constructor
  · rw [bigScenario_eval]
  · norm_num [sumSq]

/-- C3, amended.  For a text longer than 10 000 characters whose direct
provider call fails with a non-rate-limit error, `safe_embed` returns
the element-wise average of the embeddings of the two character-wise
halves — *without* re-normalization — rather than a direct provider
result on the full text. -/
theorem safe_embed_oversized_averages (p : Provider) (text : List Char)
    (k : Nat) (m : String) (lv rv : List ℝ) (k' k'' : Nat) (ws1 ws2 : List Nat)
    (hfail : p k text = .fail m) (hlen : 10000 < text.length)
    (hl : safe_embed p (text.take (text.length / 2)) 0 (k + 1) = (.ok lv, k', ws1))
    (hr : safe_embed p (text.drop (text.length / 2)) 0 k' = (.ok rv, k'', ws2)) :
    safe_embed p text 0 k = (.ok (avgVec lv rv), k'', ws1 ++ ws2) := by
  rw [safe_embed_fail_split hfail hlen hl, hr]

/-- Witness for C3's amended theorem, at the concrete oversized
scenario. -/
theorem safe_embed_oversized_averages_witness :
    safe_embed bigProvider bigText 0 0 =
      (.ok (avgVec [(1 : ℝ), 0] [(0 : ℝ), 1]), 3, [] ++ []) := by
  have hlen : bigText.length = 10001 := by
    rw [bigText, List.length_replicate]
  refine safe_embed_oversized_averages bigProvider bigText 0 "boom"
    [(1 : ℝ), 0] [(0 : ℝ), 1] 2 3 [] [] ?_ (by omega) ?_ ?_
  · simp only [bigProvider, hlen]
    norm_num
  · have hmid : bigText.length / 2 = 5000 := by rw [hlen]
    have htake : bigText.take 5000 = List.replicate 5000 'a' := by
      rw [bigText, List.take_replicate]
      norm_num
    have h1 : bigProvider 1 (List.replicate 5000 'a') = .ok [1, 0] := by
      simp only [bigProvider, List.length_replicate]
      norm_num
    rw [hmid, htake, safe_embed_ok h1 0, normalize_e1]
  · have hmid : bigText.length / 2 = 5000 := by rw [hlen]
    have hdrop : bigText.drop 5000 = List.replicate 5001 'a' := by
      rw [bigText, List.drop_replicate]
    have h2 : bigProvider 2 (List.replicate 5001 'a') = .ok [0, 1] := by
      simp only [bigProvider, List.length_replicate]
      norm_num
    rw [hmid, hdrop, safe_embed_ok h2 0, normalize_e2]

/-- C4 counterexample.  Not every vector returned by the embedding
operation is unit-norm: the oversized-input fallback returns
`[1/2, 1/2]`, whose L2 norm is `√(1/2) ≠ 1`. -/
theorem embedding_unit_norm_counterexample :
    (safe_embed bigProvider bigText 0 0).1 = .ok [(1 : ℝ)/2, 1/2] ∧
      l2norm [(1 : ℝ)/2, 1/2] ≠ 1 := by
  constructor
  · rw [bigScenario_eval]
  · rw [l2norm, Ne, Real.sqrt_eq_one]
    norm_num [sumSq]

/-- C4, amended.  Every vector produced by `embed_text` from a
successful provider call with a non-degenerate (nonzero) raw embedding
has L2 norm exactly 1 (in exact real arithmetic), and `safe_embed`
returns that vector unchanged; the oversized-input fallback path,
however, can return vectors of norm below 1 (see the counterexample). -/
theorem embed_text_unit_norm (p : Provider) (k rc : Nat) (text : List Char)
    (v : List ℝ) (hok : p k text = .ok v) (hnz : sumSq v ≠ 0) :
    embed_text p k text = .ok (normalize v) ∧
      l2norm (normalize v) = 1 ∧
      (safe_embed p text rc k).1 = .ok (normalize v) := by
  refine ⟨?_, l2norm_normalize v hnz, ?_⟩
  · rw [embed_text, hok]
  · rw [safe_embed_ok hok]

/-- Witness for C4's amended theorem at the raw embedding `[3, 4]`
(norm 5). -/
theorem embed_text_unit_norm_witness :
    sumSq [(3 : ℝ), 4] ≠ 0 ∧ l2norm (normalize [(3 : ℝ), 4]) = 1 :=
  ⟨by norm_num [sumSq],
    (embed_text_unit_norm (fun _ _ => .ok [3, 4]) 0 0 ['a'] [3, 4] rfl
      (by norm_num [sumSq])).2.1⟩

/-- With fuel strictly above the measure `4·|text| + (3 − retry_count)`,
the fuel-instrumented recursion finishes and agrees with `safe_embed`:
the retry chain is cut off by the counter reaching 3 and each
oversized-input split recurses on strictly shorter texts. -/
lemma safe_embedF_adequate (p : Provider) :
    ∀ μ (text : List Char) (rc k : Nat), 4 * text.length + (3 - rc) < μ →
      safe_embedF p μ text rc k = some (safe_embed p text rc k) := by
  intro μ
  induction μ with
  | zero => intro text rc k h; omega
  | succ μ ih =>
    intro text rc k h
    rcases hp : p k text with v | m | m
    · rw [safe_embedF, embed_text, hp, safe_embed_ok hp]
    · by_cases hrc : rc < 3
      · rw [safe_embed_retry hp hrc, safe_embedF, embed_text, hp]
        dsimp only
        rw [if_pos hrc, ih text (rc + 1) (k + 1) (by omega)]
        rfl
      · rw [safe_embed_exhausted hp hrc, safe_embedF, embed_text, hp]
        dsimp only
        rw [if_neg hrc]
    · by_cases hlen : 10000 < text.length
      · have hlt : 4 * (text.take (text.length / 2)).length + (3 - 0) < μ := by
          rw [List.length_take]
          omega
        have hrt : 4 * (text.drop (text.length / 2)).length + (3 - 0) < μ := by
          rw [List.length_drop]
          omega
        rw [safe_embedF, embed_text, hp]
        dsimp only
        rw [if_pos hlen, ih (text.take (text.length / 2)) 0 (k + 1) hlt]
        rcases hsl : safe_embed p (text.take (text.length / 2)) 0 (k + 1)
          with ⟨l1, lk, lws⟩
        rcases l1 with e | lv
        · rw [safe_embed_fail_split_err hp hlen hsl]
        · dsimp only
          rw [ih (text.drop (text.length / 2)) 0 lk hrt]
          rcases hsr : safe_embed p (text.drop (text.length / 2)) 0 lk
            with ⟨r1, rk, rws⟩
          rcases r1 with e' | rv
          · rw [safe_embed_fail_split hp hlen hsl, hsr]
          · rw [safe_embed_fail_split hp hlen hsl, hsr]
      · rw [safe_embed_fail_small hp hlen, safe_embedF, embed_text, hp]
        dsimp only
        rw [if_neg hlen]

/-- C10.  `safe_embed` terminates on every input text and every total
provider behaviour: with the explicit fuel `4·|text| + 4` the
fuel-instrumented recursion `safe_embedF` completes (never runs out)
and returns exactly `safe_embed`'s result, so no input causes unbounded
recursion — retries are bounded by the counter reaching 3, and each
oversized split recurses on strictly shorter texts. -/
theorem safe_embed_terminates (p : Provider) (text : List Char) (rc k : Nat) :
    safe_embedF p (4 * text.length + 4) text rc k =
      some (safe_embed p text rc k) :=
  safe_embedF_adequate p _ text rc k (by omega)

lemma orderedInsert_filter_eq (x : SearchResult) (s : ℚ) :
    ∀ l : List SearchResult,
      (List.orderedInsert simDesc x l).filter (fun r => decide (r.similarity = s)) =
        if x.similarity = s then
          x :: l.filter (fun r => decide (r.similarity = s))
        else l.filter (fun r => decide (r.similarity = s)) := by
  intro l
  induction l with
  | nil =>
    by_cases hx : x.similarity = s <;> simp [List.orderedInsert, List.filter, hx]
  | cons y ys ih =>
    rw [List.orderedInsert]
    by_cases hxy : simDesc x y
    · rw [if_pos hxy]
      by_cases hx : x.similarity = s <;> simp [List.filter_cons, hx]
    · rw [if_neg hxy]
      have hy : ¬ y.similarity = s ∨ ¬ x.similarity = s := by
        by_cases hx : x.similarity = s
        · left
          intro hys
          exact hxy (by rw [simDesc, hys, hx])
        · right
          exact hx
      by_cases hys : y.similarity = s
      · have hx : ¬ x.similarity = s := by tauto
        simp [List.filter_cons, hys, hx, ih]
      · by_cases hx : x.similarity = s <;> simp [List.filter_cons, hys, hx, ih]

/-- Stability: sorting does not reorder entries of equal similarity —
for every similarity value, the subsequence carrying it is unchanged. -/
lemma sortBySimDesc_stable (l : List SearchResult) (s : ℚ) :
    (sortBySimDesc l).filter (fun r => decide (r.similarity = s)) =
      l.filter (fun r => decide (r.similarity = s)) := by
  induction l with
  | nil => rfl
  | cons a l ih =>
    rw [sortBySimDesc] at ih
    rw [sortBySimDesc, List.insertionSort, orderedInsert_filter_eq]
    by_cases ha : a.similarity = s
    · rw [if_pos ha, ih, List.filter_cons, if_pos (by simpa using ha)]
    · rw [if_neg ha, ih, List.filter_cons, if_neg (by simpa using ha)]

lemma resolveCandidate_sim_ge {metadata : List MetaRecord} {c : ℚ × Int}
    {r : SearchResult} (h : resolveCandidate metadata c = some r) :
    SIMILARITY_THRESHOLD ≤ r.similarity := by
  rw [resolveCandidate] at h
  split_ifs at h with h1 h2
  · rcases Option.map_eq_some'.mp h with ⟨m, _, hm⟩
    rw [← hm]
    exact h2

/-- C7.  `search_similar` fetches `2k` candidates from the index, drops
out-of-range positions and candidates below the similarity threshold
(`resolveCandidate`), sorts the survivors by similarity descending with
a stable sort (a permutation that preserves the relative order of
equal-similarity entries), and returns at most `k` results, each of
similarity ≥ the threshold. -/
theorem search_similar_spec (metadata : List MetaRecord) (searchFn : SearchFn)
    (k : Nat) :
    search_similar metadata searchFn k =
      (sortBySimDesc ((searchFn (k * 2)).filterMap
        (resolveCandidate metadata))).take k ∧
    (search_similar metadata searchFn k).length ≤ k ∧
    (∀ r ∈ search_similar metadata searchFn k,
      SIMILARITY_THRESHOLD ≤ r.similarity) ∧
    (search_similar metadata searchFn k).Pairwise simDesc ∧
    (sortBySimDesc ((searchFn (k * 2)).filterMap (resolveCandidate metadata))).Perm
      ((searchFn (k * 2)).filterMap (resolveCandidate metadata)) ∧
    (∀ s : ℚ,
      (sortBySimDesc ((searchFn (k * 2)).filterMap
        (resolveCandidate metadata))).filter (fun r => decide (r.similarity = s)) =
      ((searchFn (k * 2)).filterMap (resolveCandidate metadata)).filter
        (fun r => decide (r.similarity = s))) := by
  refine ⟨rfl, List.length_take_le k _, ?_, ?_, List.perm_insertionSort simDesc _,
    fun s => sortBySimDesc_stable _ s⟩
  · intro r hr
    have hr1 : r ∈ sortBySimDesc ((searchFn (k * 2)).filterMap
        (resolveCandidate metadata)) := List.take_subset k _ hr
    have hr2 : r ∈ (searchFn (k * 2)).filterMap (resolveCandidate metadata) :=
      (List.perm_insertionSort simDesc _).mem_iff.mp hr1
    rcases List.mem_filterMap.mp hr2 with ⟨c, _, hc⟩
    exact resolveCandidate_sim_ge hc
  · exact (List.sorted_insertionSort simDesc _).sublist (List.take_sublist _ _)

/-- Witness for C7 at a concrete metadata store and search oracle. -/
theorem search_similar_spec_witness :
    (search_similar mdOne negCand 1).length ≤ 1 ∧
    (∀ r ∈ search_similar mdOne negCand 1,
      SIMILARITY_THRESHOLD ≤ r.similarity) :=
  ⟨(search_similar_spec mdOne negCand 1).2.1,
    (search_similar_spec mdOne negCand 1).2.2.1⟩

/-- C8 counterexample.  With the hardcoded threshold 0 the filtering
step is *not* a no-op on every candidate list: a candidate with
negative similarity (inner products of unit vectors range over
`[-1, 1]`) is dropped by the threshold but kept when no filtering is
performed. -/
theorem threshold_filter_not_noop :
    search_similar mdOne negCand 1 = [] ∧
    search_similar_nofilter mdOne negCand 1 =
      [{ content := "t", source := "s", ctype := "course_content", similarity := -1, chunk_id := 0 }] ∧
    search_similar mdOne negCand 1 ≠ search_similar_nofilter mdOne negCand 1 := by
  refine ⟨by decide, by decide, by decide⟩

/-- C8, amended.  With `SIMILARITY_THRESHOLD = 0` the filtering step
keeps exactly the candidates of nonnegative similarity; on every
candidate list whose similarities are all ≥ 0 it is a no-op — the
result equals retrieval with no threshold filtering at all. -/
theorem threshold_filter_noop_on_nonneg (metadata : List MetaRecord)
    (searchFn : SearchFn) (k : Nat)
    (hnn : ∀ c ∈ searchFn (k * 2), (0 : ℚ) ≤ c.1) :
    search_similar metadata searchFn k =
      search_similar_nofilter metadata searchFn k := by
  have hcong : (searchFn (k * 2)).filterMap (resolveCandidate metadata) =
      (searchFn (k * 2)).filterMap fun c =>
        if c.2 < 0 ∨ (metadata.length : Int) ≤ c.2 then none
        else
          (metadata.get? c.2.toNat).map fun m =>
            { content := m.text, source := m.source, ctype := m.ctype,
              similarity := c.1, chunk_id := m.chunk_id.getD 0 } := by
    apply List.filterMap_congr
    intro c hc
    have h0 : SIMILARITY_THRESHOLD ≤ c.1 := hnn c hc
    simp only [resolveCandidate]
    by_cases hr : c.2 < 0 ∨ (metadata.length : Int) ≤ c.2
    · simp [hr]
    · simp [hr, h0]
  rw [search_similar, search_similar_nofilter, hcong]

/-- Witness for C8's amended theorem at a nonnegative candidate list. -/
theorem threshold_filter_noop_witness :
    search_similar mdOne posCand 1 = search_similar_nofilter mdOne posCand 1 :=
  threshold_filter_noop_on_nonneg mdOne posCand 1 (by decide)

/-- C9.  On an empty retrieved-chunk list `generate_answer` returns the
fixed "no relevant information" answer with an empty links list and
never consults the generative model (its result does not depend on the
model oracle); on a non-empty list the links are exactly one entry per
chunk, in order, pairing the chunk's source with the first 150
characters of its text. -/
theorem generate_answer_spec (genFn : String → String) (question : String) :
    generate_answer genFn question [] = (NO_INFO_ANSWER, []) ∧
    (∀ genFn', generate_answer genFn question [] =
      generate_answer genFn' question []) ∧
    (∀ chunks : List SearchResult, chunks ≠ [] →
      (generate_answer genFn question chunks).2 =
        chunks.map fun c =>
          ({ url := c.source, text := c.content.take 150 } : LinkInfo)) := by
  refine ⟨rfl, fun _ => rfl, ?_⟩
  intro chunks hne
  rw [generate_answer, if_neg (by simpa using hne)]

set_option maxRecDepth 4000 in
/-- Witness for C9 at a concrete non-empty chunk list. -/
theorem generate_answer_spec_witness :
    (generate_answer (fun _ => "ans") "q" [chunkC]).2 =
      [({ url := "s", text := "c" } : LinkInfo)] := by
  rw [(generate_answer_spec (fun _ => "ans") "q").2.2 [chunkC] (by simp)]
  decide

/-- A successful `embedAll` returns one vector per input text. -/
lemma embedAll_ok_length (p : Provider) :
    ∀ (texts : List (List Char)) (k : Nat) (embs : List (List ℝ)) (k' : Nat),
      embedAll p texts k = (.ok embs, k') → embs.length = texts.length := by
  intro texts
  induction texts with
  | nil =>
    intro k embs k' h
    rw [embedAll] at h
    simp only [Prod.mk.injEq, Except.ok.injEq] at h
    simp [← h.1]
  | cons t ts ih =>
    intro k embs k' h
    rw [embedAll] at h
    rcases hse : safe_embed p t 0 k with ⟨r1, k1, ws⟩
    rw [hse] at h
    rcases r1 with e | v
    · simp at h
    · dsimp only at h
      rcases hE : embedAll p ts k1 with ⟨r2, k2⟩
      rw [hE] at h
      rcases r2 with e | vs
      · simp at h
      · simp only [Prod.mk.injEq, Except.ok.injEq] at h
        rw [← h.1, List.length_cons, ih k1 vs k2 hE]
        rfl

/-- A committed batch appends `|texts|` vectors and, for aligned
inputs, `|texts|` metadata records pairing each text with its metadata
in order. -/
lemma index_batch_ok (p : Provider) (st : IngestState)
    (texts : List (List Char)) (metas : List ChunkMeta) (k : Nat)
    (st' : IngestState) (k' : Nat) (hlen : texts.length = metas.length)
    (hok : index_batch p st texts metas k = (.ok st', k')) :
    st'.index.length = st.index.length + texts.length ∧
      st'.metadata.length = st.metadata.length + texts.length ∧
      (st'.metadata.drop st.metadata.length).map (fun r => r.text) =
        texts.map String.mk ∧
      (st.index.length = st.metadata.length →
        st'.index.length = st'.metadata.length) := by
  rw [index_batch] at hok
  rcases hE : embedAll p texts k with ⟨r, k2⟩
  rw [hE] at hok
  rcases r with e | embs
  · simp at hok
  · simp only [Prod.mk.injEq, Except.ok.injEq] at hok
    have hembs : embs.length = texts.length := embedAll_ok_length p texts k embs k2 hE
    have hzip : (texts.zip metas).length = texts.length := by
      rw [List.length_zip]
      omega
    rw [← hok.1]
    refine ⟨?_, ?_, ?_, ?_⟩
    · simp [List.length_append, hembs]
    · simp [List.length_append, List.length_map, hzip]
    · rw [List.drop_left, List.map_map]
      have : (fun r => r.text) ∘ (fun pr : List Char × ChunkMeta => mkStored pr.1 pr.2)
          = String.mk ∘ Prod.fst := by
        funext pr
        rfl
      rw [this, ← List.map_map, List.map_fst_zip texts metas (by omega)]
    · intro hinv
      simp [List.length_append, hembs, List.length_map, hzip, hinv]

/-- A completed batched run grows both stores by the total input count
and preserves the lockstep invariant. -/
lemma runBatches_ok (p : Provider) :
    ∀ (n : Nat) (st : IngestState) (texts : List (List Char))
      (metas : List ChunkMeta) (k : Nat) (st' : IngestState) (k' : Nat),
      texts.length ≤ n → texts.length = metas.length →
      st.index.length = st.metadata.length →
      runBatches p st texts metas k = (.ok st', k') →
      st'.index.length = st'.metadata.length ∧
        st'.index.length = st.index.length + texts.length := by
  intro n
  induction n with
  | zero =>
    intro st texts metas k st' k' hn hlen hinv hrun
    have htexts : texts = [] := List.length_eq_zero.mp (by omega)
    subst htexts
    rw [runBatches.eq_def] at hrun
    dsimp only at hrun
    rw [dif_pos rfl] at hrun
    simp only [Prod.mk.injEq, Except.ok.injEq] at hrun
    rw [← hrun.1]
    exact ⟨hinv, by simp⟩
  | succ n ih =>
    intro st texts metas k st' k' hn hlen hinv hrun
    by_cases htexts : texts = []
    · subst htexts
      rw [runBatches.eq_def] at hrun
      dsimp only at hrun
      rw [dif_pos rfl] at hrun
      simp only [Prod.mk.injEq, Except.ok.injEq] at hrun
      rw [← hrun.1]
      exact ⟨hinv, by simp⟩
    · rw [runBatches.eq_def] at hrun
      dsimp only at hrun
      rw [dif_neg htexts] at hrun
      rcases hib : index_batch p st (texts.take BATCH_SIZE)
          (metas.take BATCH_SIZE) k with ⟨r1, k1⟩
      rw [hib] at hrun
      rcases r1 with e | st1
      · simp at hrun
      · have hlen1 : (texts.take BATCH_SIZE).length = (metas.take BATCH_SIZE).length := by
          simp only [List.length_take]
          omega
        have hb := index_batch_ok p st (texts.take BATCH_SIZE)
          (metas.take BATCH_SIZE) k st1 k1 hlen1 hib
        have hpos : 0 < texts.length := List.length_pos.mpr htexts
        have hrec := ih st1 (texts.drop BATCH_SIZE) (metas.drop BATCH_SIZE) k1 st' k'
          (by simp only [List.length_drop, BATCH_SIZE]; omega)
          (by simp only [List.length_drop]; omega)
          (hb.2.2.2 hinv) hrun
        refine ⟨hrec.1, ?_⟩
        rw [hrec.2, hb.1]
        simp only [List.length_take, List.length_drop]
        omega

/-- C1.  The Vector Index and Metadata Store grow in lockstep: a batch
committed by `index_batch` on aligned inputs appends exactly `n`
vectors and then `n` metadata records pairing the same texts in the
same order (so equal sizes are preserved), and a completed batched
ingestion run over aligned inputs leaves the index size equal to the
metadata record count. -/
theorem ingestion_lockstep (p : Provider) :
    (∀ (st : IngestState) (texts : List (List Char)) (metas : List ChunkMeta)
        (k : Nat) (st' : IngestState) (k' : Nat),
      texts.length = metas.length →
      index_batch p st texts metas k = (.ok st', k') →
      st'.index.length = st.index.length + texts.length ∧
        st'.metadata.length = st.metadata.length + texts.length ∧
        (st'.metadata.drop st.metadata.length).map (fun r => r.text) =
          texts.map String.mk ∧
        (st.index.length = st.metadata.length →
          st'.index.length = st'.metadata.length)) ∧
    (∀ (st : IngestState) (texts : List (List Char)) (metas : List ChunkMeta)
        (k : Nat) (st' : IngestState) (k' : Nat),
      texts.length = metas.length →
      st.index.length = st.metadata.length →
      runBatches p st texts metas k = (.ok st', k') →
      st'.index.length = st'.metadata.length ∧
        st'.index.length = st.index.length + texts.length) :=
  ⟨fun st texts metas k st' k' hlen hok =>
      index_batch_ok p st texts metas k st' k' hlen hok,
    fun st texts metas k st' k' hlen hinv hrun =>
      runBatches_ok p texts.length st texts metas k st' k' le_rfl hlen hinv hrun⟩

lemma index_batch_concrete :
    index_batch okProvider ⟨[], []⟩ [['a']] [metaA] 0 = (.ok stW, 1) := by
  have hse : safe_embed okProvider ['a'] 0 0 = (.ok [(1 : ℝ)], 1, []) := by
    rw [safe_embed_ok (v := [1]) rfl 0, normalize_one]
  have hE : embedAll okProvider [['a']] 0 = (.ok [[(1 : ℝ)]], 1) := by
    rw [embedAll, hse]
    rfl
  rw [index_batch, hE]
  rfl

/-- Witness for C1 at a one-chunk batch: both the single batch and the
batched run keep the two stores at equal size 1. -/
theorem ingestion_lockstep_witness :
    stW.index.length = stW.metadata.length ∧ stW.index.length = 0 + 1 := by
  have hrb : runBatches okProvider ⟨[], []⟩ [['a']] [metaA] 0 = (.ok stW, 1) := by
    rw [runBatches.eq_def]
    dsimp only
    rw [dif_neg (by simp : ¬ ([['a']] : List (List Char)) = [])]
    have htk : (([['a']] : List (List Char)).take BATCH_SIZE) = [['a']] := rfl
    have hmk : (([metaA] : List ChunkMeta).take BATCH_SIZE) = [metaA] := rfl
    rw [htk, hmk, index_batch_concrete]
    dsimp only
    have hdk : (([['a']] : List (List Char)).drop BATCH_SIZE) = [] := rfl
    have hdm : (([metaA] : List ChunkMeta).drop BATCH_SIZE) = [] := rfl
    rw [hdk, hdm, runBatches.eq_def]
    dsimp only
    rw [dif_pos rfl]
  have h := (ingestion_lockstep okProvider).2 ⟨[], []⟩ [['a']] [metaA] 0 stW 1
    rfl rfl hrb
  exact ⟨h.1, h.2⟩

end VirtualTA
